import Mathlib

/-!
Shallow embedding of the real-time streaming classification pipeline of the
notebook `11-real-time.ipynb`: the file watchers (`tr_watcher_simple` and the
event-driven `tr_watcher`), the preprocessing transform, and the `realtime`
controller loop with its training, classifying and incremental-update
branches, together with proofs of the stated properties of these components.
-/

namespace RT

/-- Python list slice `l[a:b]` (step 1): a negative bound counts from the end
of the list, both bounds are clamped into `[0, len]`, and the slice is empty
when the normalized stop is at or before the normalized start. -/
def pySlice {α : Type} (l : List α) (a b : Int) : List α :=
  let n : Int := l.length
  let s : Int := if a < 0 then max (n + a) 0 else min a n
  let e : Int := if b < 0 then max (n + b) 0 else min b n
  (l.drop s.toNat).take (e - s).toNat

/-- Python list indexing `l[i]`: a negative index counts from the end of the
list; `none` models an IndexError. -/
def pyGet {α : Type} (l : List α) (i : Int) : Option α :=
  let j : Int := if i < 0 then (l.length : Int) + i else i
  if 0 ≤ j then l[j.toNat]? else none

/-- Rows `s, s+1, …, e-1` of the numpy matrix `tr_data`, where `feats i` is
the preprocessed feature vector stored in row `i`. Every slice the controller
takes reads only rows already filled by earlier loop iterations, so the
fully-filled matrix stands in for the progressively-filled one. -/
def npRows {F : Type} (feats : ℕ → F) (s e : ℕ) : List F :=
  (List.range' s (e - s)).map feats

/-- Contents on disk of a volume file whose name already exists: either the
producer is still writing it (so `np.load` raises) or it is fully written
with parsed value `v`. -/
inductive FileContent (V : Type) where
  | halfWritten
  | complete (v : V)
deriving DecidableEq, Repr

/-- Result of `np.load` on an existing file: parsing a half-written file
raises an error. -/
def npLoad {V : Type} : FileContent V → Except String V
  | FileContent.halfWritten => Except.error "PartialReadError"
  | FileContent.complete v => Except.ok v

/-- Load step shared by `tr_watcher` and `tr_watcher_simple`: once the
expected file's name exists, the code executes `vol = np.load(filename)`
exactly once and returns, with no retry and no backoff - so the outcome is
`npLoad` of the contents at the first (and only) attempt, `history 0`, where
`history t` gives the file's contents at successive possible attempt times. -/
def tr_watcher_load {V : Type} (history : ℕ → FileContent V) : Except String V :=
  npLoad (history 0)

/-- Waiting loop of `tr_watcher`: pop `file_queue.get()` until an event whose
`src_path` equals the expected filename, discarding every non-matching event;
`none` means no matching event is ever delivered, so the call blocks. Files
are identified by their sequence index. -/
def drainUntil (filename : ℕ) : List ℕ → Option (List ℕ)
  | [] => none
  | e :: rest => if e = filename then some rest else drainUntil filename rest

/-- Model of `tr_watcher(filename, file_queue)`: if the file already exists
(`fs filename`) the queue is untouched; otherwise creation events are
consumed from the queue until the matching one arrives; then the file is
loaded. `content` gives the parsed volume of each file. -/
def tr_watcher {V : Type} (fs : ℕ → Bool) (content : ℕ → V) (filename : ℕ)
    (queue : List ℕ) : Option (V × List ℕ) :=
  if fs filename then some (content filename, queue)
  else
    match drainUntil filename queue with
    | some rest => some (content filename, rest)
    | none => none

/-- Consumer side of the `realtime` loop: starting at sequence index `start`,
process `k` further volumes, requesting each expected index from `tr_watcher`
in turn and threading the notification queue through. `fs i` is the
file-existence oracle at the time index `i` is requested (files keep being
created while the run progresses). The returned list records the processed
(index, volume) pairs in processing order; `none` means some wait blocked. -/
def consumeFrom {V : Type} (fs : ℕ → ℕ → Bool) (content : ℕ → V) :
    ℕ → ℕ → List ℕ → Option (List (ℕ × V))
  | 0, _, _ => some []
  | k + 1, start, q =>
    match tr_watcher (fs start) content start q with
    | none => none
    | some (v, q') =>
      match consumeFrom fs content k (start + 1) q' with
      | none => none
      | some rest => some ((start, v) :: rest)

/-- A full consumer run over `n` volumes starting at sequence index 0. -/
def runConsumer {V : Type} (fs : ℕ → ℕ → Bool) (content : ℕ → V) (n : ℕ)
    (queue : List ℕ) : Option (List (ℕ × V)) :=
  consumeFrom fs content n 0 queue

/-- Lifecycle state of a watchdog `Observer`. -/
inductive ObsState where
  | running
  | stopped
deriving DecidableEq, Repr

/-- Observer lifecycle of the `realtime` function: a fresh local `Observer`
is started before the TR loop, and `file_observer.stop()` runs only after
the loop has finished every iteration; there is no try/finally, so when an
iteration raises (`body i = Except.error e`) the exception propagates with
the local observer still running. The result is the final state of the local
observer paired with the propagated error, if any. -/
def realtimeObserver (body : ℕ → Except String Unit) (n : ℕ) :
    ObsState × Option String :=
  match (List.range n).foldlM (fun _ i => body i) () with
  | Except.ok _ => (ObsState.stopped, none)
  | Except.error e => (ObsState.running, some e)

/-- The cell that invokes `realtime` inside try/except: the handler calls
`file_observer.stop()` on the module-level observer left over from the
earlier notebook cells, not on the local observer `realtime` created.
Result: (final state of the run's local observer, final state of the
module-level observer). -/
def realtimeCallerCell (body : ℕ → Except String Unit) (n : ℕ)
    (globalObs : ObsState) : ObsState × ObsState :=
  match realtimeObserver body n with
  | (localObs, none) => (localObs, globalObs)
  | (localObs, some _) => (localObs, ObsState.stopped)

lemma consumeFrom_map_fst {V : Type} (fs : ℕ → ℕ → Bool) (content : ℕ → V) :
    ∀ (k start : ℕ) (q : List ℕ) (l : List (ℕ × V)),
      consumeFrom fs content k start q = some l →
      l.map Prod.fst = List.range' start k := by
  intro k
  induction k with
  | zero =>
    intro start q l h
    simp [consumeFrom] at h
    simp [← h, List.range']
  | succ k ih =>
    intro start q l h
    unfold consumeFrom at h
    cases hw : tr_watcher (fs start) content start q with
    | none => rw [hw] at h; exact absurd h (by simp)
    | some vq =>
      obtain ⟨v, q'⟩ := vq
      rw [hw] at h
      dsimp only at h
      cases hrec : consumeFrom fs content k (start + 1) q' with
      | none => rw [hrec] at h; exact absurd h (by simp)
      | some rest =>
        rw [hrec] at h
        simp only [Option.some.injEq] at h
        subst h
        simp [List.range'_succ, ih (start + 1) q' rest hrec]

/-- Existence oracle for the out-of-order notification scenario: files 0-3
are on disk from the start; files 4 and 5 are created (in the order 5 then 4
as far as notifications go) while the consumer waits during iteration 4, so
from iteration 5 onward they exist on disk. -/
def fsScn : ℕ → ℕ → Bool := fun i j => decide (j < 4) || decide (5 ≤ i)

/-- C2: the consumer processes volumes strictly in increasing sequence-index
order: whenever a run completes, the processed indices are exactly
`0, 1, …, n-1` in order, regardless of the notification queue contents; in
particular, with notification events for index 5 and then index 4 enqueued
in that order, index 4 is still processed (at position 4) before index 5
(at position 5). -/
theorem c2_index_order :
    (∀ (V : Type) (fs : ℕ → ℕ → Bool) (content : ℕ → V) (n : ℕ)
      (q : List ℕ) (l : List (ℕ × V)),
        runConsumer fs content n q = some l →
        l.map Prod.fst = List.range n) ∧
    runConsumer fsScn (fun j => j) 6 [5, 4] =
      some [(0, 0), (1, 1), (2, 2), (3, 3), (4, 4), (5, 5)] := by
  constructor
  · intro V fs content n q l h
    rw [List.range_eq_range']
    exact consumeFrom_map_fst fs content n 0 q l h
  · rfl

/-- Witness for C2: instantiating the ordering theorem on the out-of-order
scenario run. -/
theorem c2_index_order_witness :
    ([(0, 0), (1, 1), (2, 2), (3, 3), (4, 4), (5, 5)] :
      List (ℕ × ℕ)).map Prod.fst = List.range 6 :=
  c2_index_order.1 ℕ fsScn (fun j => j) 6 [5, 4] _ c2_index_order.2

/-- C3 (code bug): when an iteration of the TR loop raises, the error
propagates while the local observer that `realtime` started is still
running - `realtime` has no try/finally, and the caller cell's except
handler stops only the stale module-level observer. Evaluated at the
failing input: a 1-volume run whose iteration 0 raises an InputError while
the module-level observer is (still) running. -/
theorem c3_watcher_leak_on_error :
    realtimeObserver (fun _ => Except.error "InputError") 1 =
      (ObsState.running, some "InputError") ∧
    realtimeCallerCell (fun _ => Except.error "InputError") 1
      ObsState.running = (ObsState.running, ObsState.stopped) := by
  exact ⟨rfl, rfl⟩

/-- C4 (code bug): a file whose name exists but whose contents are still
being written at the first read, and which is fully written (value 37) from
the next instant onward, makes the watcher's single `np.load` attempt fail
with a PartialReadError: there is no retry or backoff, so the stabilized
contents are never returned even though they stabilize within any positive
retry budget. -/
theorem c4_no_retry_on_partial_read :
    tr_watcher_load
      (fun t => if t = 0 then FileContent.halfWritten
                else FileContent.complete (37 : ℕ)) =
      Except.error "PartialReadError" := rfl

/-- Values of the volume selected by the boolean mask, flattened to one
dimension in element order. -/
def maskedVals (vol : List ℚ) (mask : List Bool) : List ℚ :=
  ((vol.zip mask).filter (fun p => p.2)).map (fun p => p.1)

/-- Mean of a list of rationals. -/
def listMean (xs : List ℚ) : ℚ := xs.sum / xs.length

/-- Population variance of a list of rationals: the mean squared deviation
from the mean. -/
def listVar (xs : List ℚ) : ℚ :=
  (xs.map (fun x => (x - listMean xs) ^ 2)).sum / xs.length

/-- Modelled from the spec: the body of `preprocess_vol` is blank in the
source (the Exercise 2 cell leaves only the signature
`def preprocess_vol(vol, mask)`), so the transform follows the spec's words:
apply the mask to select elements, flatten to one dimension, then z-score
(subtract the mean, divide by the standard deviation) across the selected
elements of this single volume only. The standard deviation `sd` is passed
as a parameter and used under the defining hypothesis
`sd ^ 2 = listVar (maskedVals vol mask)`, because square roots leave ℚ. -/
def preprocess_vol (vol : List ℚ) (mask : List Bool) (sd : ℚ) : List ℚ :=
  let sel := maskedVals vol mask
  let m := listMean sel
  sel.map (fun x => (x - m) / sd)

lemma maskedVals_length (vol : List ℚ) (mask : List Bool)
    (h : vol.length = mask.length) :
    (maskedVals vol mask).length = mask.countP id := by
  induction mask generalizing vol with
  | nil =>
    cases vol with
    | nil => rfl
    | cons v vol => simp at h
  | cons b mask ih =>
    cases vol with
    | nil => simp at h
    | cons v vol =>
      have h' : vol.length = mask.length := by simpa using h
      cases b <;>
        simp [maskedVals, List.countP_cons] <;>
        simpa [maskedVals] using ih vol h'

lemma sum_map_sub (xs : List ℚ) (c : ℚ) :
    (xs.map (fun x => x - c)).sum = xs.sum - xs.length * c := by
  induction xs with
  | nil => simp
  | cons a xs ih =>
    simp only [List.map_cons, List.sum_cons, List.length_cons, ih]
    push_cast
    ring

lemma sum_map_div (xs : List ℚ) (s : ℚ) :
    (xs.map (fun x => x / s)).sum = xs.sum / s := by
  induction xs with
  | nil => simp
  | cons a xs ih => simp [ih, add_div]

lemma listMean_eq (xs : List ℚ) : listMean xs = xs.sum / xs.length := rfl

lemma listVar_eq (xs : List ℚ) :
    listVar xs = (xs.map (fun x => (x - listMean xs) ^ 2)).sum / xs.length := rfl

lemma listMean_center_div (sel : List ℚ) (sd : ℚ) (hne : sel ≠ []) :
    listMean (sel.map (fun x => (x - listMean sel) / sd)) = 0 := by
  have hn : (sel.length : ℚ) ≠ 0 :=
    Nat.cast_ne_zero.mpr (List.length_pos.mpr hne).ne'
  have h1 : sel.map (fun x => (x - listMean sel) / sd) =
      (sel.map (fun x => x - listMean sel)).map (fun y => y / sd) := by
    simp [List.map_map, Function.comp]
  have hz : (sel.length : ℚ) * (sel.sum / sel.length) = sel.sum := by
    field_simp
  have hsum : (sel.map (fun x => (x - listMean sel) / sd)).sum = 0 := by
    rw [h1, sum_map_div, sum_map_sub, listMean_eq, hz, sub_self, zero_div]
  rw [listMean_eq, hsum, zero_div]

lemma listVar_center_div (sel : List ℚ) (sd : ℚ) (hne : sel ≠ [])
    (hsd : sd ≠ 0) (hv : sd ^ 2 = listVar sel) :
    listVar (sel.map (fun x => (x - listMean sel) / sd)) = 1 := by
  have hn : (sel.length : ℚ) ≠ 0 :=
    Nat.cast_ne_zero.mpr (List.length_pos.mpr hne).ne'
  have hm := listMean_center_div sel sd hne
  rw [listVar_eq, hm]
  have hlen : (sel.map (fun x => (x - listMean sel) / sd)).length = sel.length := by
    simp
  have hfun : (fun y : ℚ => (y - 0) ^ 2) ∘ (fun x => (x - listMean sel) / sd) =
      (fun y => y / sd ^ 2) ∘ (fun x => (x - listMean sel) ^ 2) := by
    funext x
    simp [div_pow]
  rw [List.map_map, hfun, ← List.map_map, sum_map_div, hlen]
  have hS : (sel.map (fun x => (x - listMean sel) ^ 2)).sum =
      listVar sel * sel.length := by
    rw [listVar_eq]
    field_simp
  rw [hS, ← hv]
  have hsd2 : sd ^ 2 ≠ 0 := pow_ne_zero 2 hsd
  field_simp

/-- C9: for every valid (volume, mask) pair - matching lengths, at least one
selected element, and a positive standard deviation `sd` of the selected
values (characterized by `sd ^ 2 = listVar`) - the preprocessing transform
returns a flat vector whose length equals the number of true entries of the
mask, whose mean is exactly 0, and whose population variance is exactly 1;
over ℚ the claim's floating tolerances become exact equalities, and dtype
invariance is vacuous since the embedding has a single numeric type. -/
theorem c9_preprocess_zscore (vol : List ℚ) (mask : List Bool) (sd : ℚ)
    (hlen : vol.length = mask.length) (hne : maskedVals vol mask ≠ [])
    (hsd : 0 < sd) (hv : sd ^ 2 = listVar (maskedVals vol mask)) :
    (preprocess_vol vol mask sd).length = mask.countP id ∧
    listMean (preprocess_vol vol mask sd) = 0 ∧
    listVar (preprocess_vol vol mask sd) = 1 := by
  refine ⟨?_, ?_, ?_⟩
  · simp [preprocess_vol, maskedVals_length vol mask hlen]
  · simpa [preprocess_vol] using
      listMean_center_div (maskedVals vol mask) sd hne
  · simpa [preprocess_vol] using
      listVar_center_div (maskedVals vol mask) sd hne hsd.ne' hv

/-- Witness for C9: a two-element volume with contents 3 and 1, an all-true
mask, and standard deviation 1 (the population variance of the pair 3, 1 is
exactly 1). -/
theorem c9_preprocess_zscore_witness :
    (preprocess_vol [3, 1] [true, true] 1).length = List.countP id [true, true] ∧
    listMean (preprocess_vol [3, 1] [true, true] 1) = 0 ∧
    listVar (preprocess_vol [3, 1] [true, true] 1) = 1 :=
  c9_preprocess_zscore [3, 1] [true, true] 1 (by decide) (by decide)
    (by norm_num) (by norm_num [listVar, listMean, maskedVals])

/-- Hemodynamic label shift, hard-coded to `tr_shift = 3` TRs inside the
`realtime` function. -/
def tr_shift : ℕ := 3

/-- The pluggable classifier `clf_obj` together with `clf.predict`:
`fitupd data labs none` models the initial call `clf_obj(data, labels)` and
`fitupd data labs (some m)` the incremental call `clf_obj(data, labels, clf)`;
`predict m f` is `clf.predict` on one feature row, and `boolOut` records
whether predictions are booleans (0/1), which the loop converts to condition
labels by adding 1. Labels are modelled as scalars: the singleton trailing
column of the source's label array (`[:,0]`) is dropped. -/
structure Adapter (F M : Type) where
  fitupd : List F → List Int → Option M → M
  predict : M → F → Int
  boolOut : Bool

/-- Observable events of one controller run, in execution order. -/
inductive Ev (F M : Type) where
  | fit (idx : ℕ) (data : List F) (labs : List Int)
  | predict (idx : ℕ) (model : M)
  | update (idx : ℕ) (data : List F) (labs : List Int) (prev : M)
deriving DecidableEq, Repr

/-- Python-level runtime errors the loop can raise. -/
inductive PyErr where
  | unboundLocal (v : String)
  | indexErr
deriving DecidableEq, Repr

/-- Mutable locals of the `realtime` loop. `clf` and `accuracy` are `none`
while the corresponding Python local is still unassigned; `err` records a
raised exception, after which the remaining iterations do not run. -/
structure St (F M : Type) where
  clf : Option M
  num_correct : ℕ
  accuracy : Option ℚ
  trace : List (Ev F M)
  err : Option PyErr
deriving DecidableEq

/-- Inputs of one `realtime` run: the loaded label sequence (the loop runs
over `range(len(labels))`), the preprocessed feature vector of each arriving
volume (row `idx` of `tr_data`), the training threshold `train_count`, the
classifier object, and the incremental batch size. -/
structure Cfg (F M : Type) where
  labels : List Int
  feats : ℕ → F
  train_count : ℕ
  adapter : Adapter F M
  incremental_batch : ℕ

/-- Feature rows the initial training reads: `tr_data[tr_shift:train_count, :]`. -/
def trainFeats {F M : Type} (cfg : Cfg F M) : List F :=
  npRows cfg.feats tr_shift cfg.train_count

/-- Labels the initial training reads: `labels[0:train_count - tr_shift]`
(a Python slice, so a negative stop wraps around). -/
def trainLabs {F M : Type} (cfg : Cfg F M) : List Int :=
  pySlice cfg.labels 0 ((cfg.train_count : Int) - (tr_shift : Int))

/-- The model produced by the initial fit at `idx = train_count`. -/
def fitModel {F M : Type} (cfg : Cfg F M) : M :=
  cfg.adapter.fitupd (trainFeats cfg) (trainLabs cfg) none

/-- Label the loop predicts for index `idx` with model `m`: `clf.predict` on
row `idx`, with boolean predictions converted by `prediction + 1`. -/
def predLabelAt {F M : Type} (cfg : Cfg F M) (m : M) (idx : ℕ) : Int :=
  if cfg.adapter.boolOut then cfg.adapter.predict m (cfg.feats idx) + 1
  else cfg.adapter.predict m (cfg.feats idx)

/-- Feature rows an incremental update at batch boundary `idx` reads:
`tr_data[start_idx + tr_shift:idx, :]` with `start_idx = idx -
incremental_batch` (at every reachable boundary `idx ≥ train_count +
incremental_batch`, so the ℕ subtraction agrees with Python's). -/
def updFeats {F M : Type} (cfg : Cfg F M) (idx : ℕ) : List F :=
  npRows cfg.feats (idx - cfg.incremental_batch + tr_shift) idx

/-- Labels an incremental update at batch boundary `idx` reads:
`labels[start_idx:idx - tr_shift]`. -/
def updLabs {F M : Type} (cfg : Cfg F M) (idx : ℕ) : List Int :=
  pySlice cfg.labels ((idx - cfg.incremental_batch : ℕ) : Int)
    ((idx : Int) - (tr_shift : Int))

/-- One iteration of the `realtime` TR loop at sequence index `idx`: collect
(`idx < train_count`), train once (`idx == train_count`), or classify and
possibly incrementally refit (`idx > train_count`). A state whose `err` is
set is frozen, since the Python exception has already aborted the loop. -/
def rtStep {F M : Type} (cfg : Cfg F M) (st : St F M) (idx : ℕ) : St F M :=
  if st.err.isSome then st
  else if idx < cfg.train_count then st
  else if idx = cfg.train_count then
    { st with clf := some (fitModel cfg),
              trace := st.trace ++ [Ev.fit idx (trainFeats cfg) (trainLabs cfg)] }
  else
    match st.clf with
    | none => { st with err := some (PyErr.unboundLocal "clf") }
    | some m =>
      match pyGet cfg.labels ((idx : Int) - (tr_shift : Int)) with
      | none =>
        { st with trace := st.trace ++ [Ev.predict idx m],
                  err := some PyErr.indexErr }
      | some lab =>
        let nc := if predLabelAt cfg m idx = lab then st.num_correct + 1
                  else st.num_correct
        let st1 : St F M :=
          { st with num_correct := nc,
                    accuracy :=
                      some ((nc : ℚ) / ((idx - cfg.train_count : ℕ) : ℚ)),
                    trace := st.trace ++ [Ev.predict idx m] }
        if 0 < cfg.incremental_batch ∧
            (idx - cfg.train_count) % cfg.incremental_batch = 0 then
          { st1 with
              clf := some (cfg.adapter.fitupd (updFeats cfg idx)
                (updLabs cfg idx) (some m)),
              trace := st1.trace ++ [Ev.update idx (updFeats cfg idx)
                (updLabs cfg idx) m] }
        else st1

/-- State before the loop: no model, no accuracy, zero correct predictions. -/
def rtInit {F M : Type} : St F M :=
  { clf := none, num_correct := 0, accuracy := none, trace := [], err := none }

/-- State of the loop after its first `n` iterations. -/
def rtRunUpTo {F M : Type} (cfg : Cfg F M) (n : ℕ) : St F M :=
  (List.range n).foldl (rtStep cfg) rtInit

/-- Final state after the whole run over `len(labels)` volumes. -/
def rtRun {F M : Type} (cfg : Cfg F M) : St F M :=
  rtRunUpTo cfg cfg.labels.length

/-- Value the `realtime` call produces: the propagated exception if an
iteration raised, an UnboundLocalError if `return accuracy` reads a local
that was never assigned, and the final accuracy otherwise. -/
def realtime {F M : Type} (cfg : Cfg F M) : Except PyErr ℚ :=
  match (rtRun cfg).err with
  | some e => Except.error e
  | none =>
    match (rtRun cfg).accuracy with
    | none => Except.error (PyErr.unboundLocal "accuracy")
    | some a => Except.ok a

/-- Recognizer for training events. -/
def isFitEv {F M : Type} : Ev F M → Bool
  | Ev.fit _ _ _ => true
  | _ => false

/-- Recognizer for incremental-update events. -/
def isUpdateEv {F M : Type} : Ev F M → Bool
  | Ev.update _ _ _ _ => true
  | _ => false

/-- Sequence indices classified during a run, in processing order. -/
def predIdxs {F M : Type} (tr : List (Ev F M)) : List ℕ :=
  tr.filterMap (fun e => match e with
    | Ev.predict i _ => some i
    | _ => none)

/-- Feature counts handed to the incremental updates of a run, in order. -/
def updFeatCounts {F M : Type} (tr : List (Ev F M)) : List ℕ :=
  tr.filterMap (fun e => match e with
    | Ev.update _ data _ _ => some data.length
    | _ => none)

/-- Concrete classifier over ℕ features and ℕ model states, used to evaluate
the controller on concrete runs: fitting bumps a version counter derived
from its inputs, prediction alternates between the labels 1 and 2. -/
def advN : Adapter ℕ ℕ where
  fitupd := fun data labs m =>
    10 * m.getD 0 + data.length + labs.foldl (fun a l => a + l.toNat) 0 + 1
  predict := fun m f => ((m + f) % 2 : ℕ) + 1
  boolOut := false

/-- Scenario A of the claims: training threshold 5 over the ten alternating
labels, incremental updating off, instantiated with any feature map and any
classifier. -/
def scnA {F M : Type} (feats : ℕ → F) (adapter : Adapter F M) : Cfg F M where
  labels := [1, 2, 1, 2, 1, 2, 1, 2, 1, 2]
  feats := feats
  train_count := 5
  adapter := adapter
  incremental_batch := 0

/-- Scenario A instantiated with the concrete classifier and identity rows. -/
def cfgA0 : Cfg ℕ ℕ := scnA (fun i => i) advN

/-- Concrete run whose training threshold equals the number of volumes. -/
def cfgTeqN : Cfg ℕ ℕ where
  labels := [1, 2, 1, 2]
  feats := fun i => i
  train_count := 4
  adapter := advN
  incremental_batch := 0

/-- Concrete run with threshold 4 over five volumes (one classified index). -/
def cfgT4 : Cfg ℕ ℕ where
  labels := [1, 2, 1, 2, 1]
  feats := fun i => i
  train_count := 4
  adapter := advN
  incremental_batch := 0

/-- Concrete incremental run: threshold 3, nine volumes, batch size 4, so
the only batch boundary is index 7. -/
def cfgBatch : Cfg ℕ ℕ where
  labels := [1, 2, 1, 2, 1, 2, 1, 2, 1]
  feats := fun i => i
  train_count := 3
  adapter := advN
  incremental_batch := 4

/-- Concrete run with more training volumes demanded than exist: two labels
but threshold 3. -/
def cfgShort : Cfg ℕ ℕ where
  labels := [1, 2]
  feats := fun i => i
  train_count := 3
  adapter := advN
  incremental_batch := 0

lemma pySlice_length {α : Type} (l : List α) (a b : Int) (ha : 0 ≤ a)
    (hab : a ≤ b) (hbn : b ≤ l.length) :
    (pySlice l a b).length = (b - a).toNat := by
  have hb : 0 ≤ b := le_trans ha hab
  simp only [pySlice, not_lt.mpr ha, if_false, not_lt.mpr hb,
    min_eq_left (le_trans hab hbn), min_eq_left hbn, List.length_take,
    List.length_drop]
  omega

lemma pySlice_getElem? {α : Type} (l : List α) (a b : Int) (ha : 0 ≤ a)
    (hab : a ≤ b) (hbn : b ≤ l.length) (k : ℕ) (hk : k < (b - a).toNat) :
    (pySlice l a b)[k]? = l[a.toNat + k]? := by
  have hb : 0 ≤ b := le_trans ha hab
  simp only [pySlice, not_lt.mpr ha, if_false, not_lt.mpr hb,
    min_eq_left (le_trans hab hbn), min_eq_left hbn]
  rw [List.getElem?_take, if_pos hk, List.getElem?_drop]

lemma pyGet_isSome_of_nonneg {α : Type} (l : List α) (i : Int) (h0 : 0 ≤ i)
    (hn : i < l.length) : ∃ v, pyGet l i = some v := by
  simp only [pyGet, not_lt.mpr h0, if_false, if_pos h0]
  have hlt : i.toNat < l.length := by omega
  exact ⟨l[i.toNat], List.getElem?_eq_getElem hlt⟩

lemma pyGet_neg_wrap_isSome {α : Type} (l : List α) (i : Int) (hneg : i < 0)
    (h0 : 0 ≤ (l.length : Int) + i) : ∃ v, pyGet l i = some v := by
  simp only [pyGet, if_pos hneg, if_pos h0]
  have hlt : ((l.length : Int) + i).toNat < l.length := by omega
  exact ⟨l[((l.length : Int) + i).toNat], List.getElem?_eq_getElem hlt⟩

/-- The label lookup `labels[idx - tr_shift]` of the classifying branch never
raises: for `0 < idx < len(labels)` the (possibly negative, then wrapping)
index is always in range. -/
lemma pyGet_shift_isSome {α : Type} (l : List α) (idx : ℕ) (h0 : 0 < idx)
    (hn : idx < l.length) :
    ∃ v, pyGet l ((idx : Int) - (tr_shift : Int)) = some v := by
  by_cases h3 : tr_shift ≤ idx
  · refine pyGet_isSome_of_nonneg l _ (by simp [tr_shift] at h3 ⊢; omega) ?_
    omega
  · refine pyGet_neg_wrap_isSome l _ ?_ ?_ <;>
      (simp [tr_shift] at h3 ⊢; omega)

lemma npRows_length {F : Type} (f : ℕ → F) (s e : ℕ) :
    (npRows f s e).length = e - s := by
  simp [npRows]

lemma npRows_getElem? {F : Type} (f : ℕ → F) (s e k : ℕ) (hk : k < e - s) :
    (npRows f s e)[k]? = some (f (s + k)) := by
  simp [npRows, List.getElem?_map, List.getElem?_range' s 1 hk]

lemma rtRunUpTo_zero {F M : Type} (cfg : Cfg F M) :
    rtRunUpTo cfg 0 = rtInit := rfl

lemma rtRunUpTo_succ {F M : Type} (cfg : Cfg F M) (n : ℕ) :
    rtRunUpTo cfg (n + 1) = rtStep cfg (rtRunUpTo cfg n) n := by
  simp [rtRunUpTo, List.range_succ]

lemma rtStep_of_err {F M : Type} (cfg : Cfg F M) (st : St F M) (idx : ℕ)
    (e : PyErr) (he : st.err = some e) : rtStep cfg st idx = st := by
  simp [rtStep, he]

lemma rtStep_of_lt {F M : Type} (cfg : Cfg F M) (st : St F M) (idx : ℕ)
    (he : st.err = none) (hlt : idx < cfg.train_count) :
    rtStep cfg st idx = st := by
  simp [rtStep, he, hlt]

lemma rtStep_of_train {F M : Type} (cfg : Cfg F M) (st : St F M)
    (he : st.err = none) :
    rtStep cfg st cfg.train_count =
      { st with clf := some (fitModel cfg),
                trace := st.trace ++
                  [Ev.fit cfg.train_count (trainFeats cfg) (trainLabs cfg)] } := by
  simp [rtStep, he]

lemma rtStep_classify_noupd {F M : Type} (cfg : Cfg F M) (st : St F M)
    (idx : ℕ) (m : M) (lab : Int) (he : st.err = none)
    (hgt : cfg.train_count < idx) (hc : st.clf = some m)
    (hl : pyGet cfg.labels ((idx : Int) - (tr_shift : Int)) = some lab)
    (hb : ¬(0 < cfg.incremental_batch ∧
      (idx - cfg.train_count) % cfg.incremental_batch = 0)) :
    rtStep cfg st idx =
      { st with
          num_correct :=
            if predLabelAt cfg m idx = lab then st.num_correct + 1
            else st.num_correct,
          accuracy := some
            (((if predLabelAt cfg m idx = lab then st.num_correct + 1
               else st.num_correct : ℕ) : ℚ) /
              ((idx - cfg.train_count : ℕ) : ℚ)),
          trace := st.trace ++ [Ev.predict idx m] } := by
  have h1 : ¬ idx < cfg.train_count := by omega
  have h2 : ¬ idx = cfg.train_count := by omega
  simp [rtStep, he, h1, h2, hc, hl, hb]

lemma rtStep_classify_upd {F M : Type} (cfg : Cfg F M) (st : St F M)
    (idx : ℕ) (m : M) (lab : Int) (he : st.err = none)
    (hgt : cfg.train_count < idx) (hc : st.clf = some m)
    (hl : pyGet cfg.labels ((idx : Int) - (tr_shift : Int)) = some lab)
    (hb : 0 < cfg.incremental_batch ∧
      (idx - cfg.train_count) % cfg.incremental_batch = 0) :
    rtStep cfg st idx =
      { st with
          clf := some (cfg.adapter.fitupd (updFeats cfg idx)
            (updLabs cfg idx) (some m)),
          num_correct :=
            if predLabelAt cfg m idx = lab then st.num_correct + 1
            else st.num_correct,
          accuracy := some
            (((if predLabelAt cfg m idx = lab then st.num_correct + 1
               else st.num_correct : ℕ) : ℚ) /
              ((idx - cfg.train_count : ℕ) : ℚ)),
          trace := st.trace ++ [Ev.predict idx m,
            Ev.update idx (updFeats cfg idx) (updLabs cfg idx) m] } := by
  have h1 : ¬ idx < cfg.train_count := by omega
  have h2 : ¬ idx = cfg.train_count := by omega
  simp [rtStep, he, h1, h2, hc, hl, hb]

lemma runUpTo_le_train {F M : Type} (cfg : Cfg F M) :
    ∀ n, n ≤ cfg.train_count → rtRunUpTo cfg n = rtInit := by
  intro n
  induction n with
  | zero => intro _; rfl
  | succ n ih =>
    intro h
    rw [rtRunUpTo_succ, ih (by omega),
      rtStep_of_lt cfg rtInit n rfl (by omega)]

lemma runUpTo_train_succ {F M : Type} (cfg : Cfg F M) :
    rtRunUpTo cfg (cfg.train_count + 1) =
      { clf := some (fitModel cfg), num_correct := 0, accuracy := none,
        trace := [Ev.fit cfg.train_count (trainFeats cfg) (trainLabs cfg)],
        err := none } := by
  rw [rtRunUpTo_succ, runUpTo_le_train cfg _ le_rfl,
    rtStep_of_train cfg rtInit rfl]
  rfl

lemma classify_phase_inv {F M : Type} (cfg : Cfg F M) :
    ∀ d, cfg.train_count + 1 + d ≤ cfg.labels.length →
      (rtRunUpTo cfg (cfg.train_count + 1 + d)).err = none ∧
      (∃ m, (rtRunUpTo cfg (cfg.train_count + 1 + d)).clf = some m) ∧
      (rtRunUpTo cfg (cfg.train_count + 1 + d)).trace.filter isFitEv =
        [Ev.fit cfg.train_count (trainFeats cfg) (trainLabs cfg)] := by
  intro d
  induction d with
  | zero =>
    intro _
    rw [runUpTo_train_succ]
    exact ⟨rfl, ⟨fitModel cfg, rfl⟩, by simp [isFitEv]⟩
  | succ d ih =>
    intro hle
    obtain ⟨he, ⟨m, hm⟩, hfit⟩ := ih (by omega)
    set idx := cfg.train_count + 1 + d with hidx
    have hstep : cfg.train_count + 1 + (d + 1) = idx + 1 := by omega
    rw [hstep, rtRunUpTo_succ]
    have hgt : cfg.train_count < idx := by omega
    have hidxN : idx < cfg.labels.length := by omega
    obtain ⟨lab, hl⟩ := pyGet_shift_isSome cfg.labels idx (by omega) hidxN
    by_cases hb : 0 < cfg.incremental_batch ∧
        (idx - cfg.train_count) % cfg.incremental_batch = 0
    · rw [rtStep_classify_upd cfg _ idx m lab he hgt hm hl hb]
      exact ⟨he, ⟨_, rfl⟩, by simp [List.filter_append, isFitEv, hfit]⟩
    · rw [rtStep_classify_noupd cfg _ idx m lab he hgt hm hl hb]
      refine ⟨he, ⟨m, hm⟩, by simp [List.filter_append, isFitEv, hfit]⟩

/-- C1 (counterexample): with four volumes and training threshold 4 - so
`trainCount ≤ N` as the claim allows - the transition to training never
fires: no volume has index 4, so the number of fit events is 0, not 1. -/
theorem c1_train_at_threshold_counterexample :
    cfgTeqN.train_count ≤ cfgTeqN.labels.length ∧
    (rtRun cfgTeqN).trace.countP isFitEv = 0 := by
  exact ⟨by decide, by decide⟩

/-- C1 (amended): for `tr_shift ≤ trainCount < N` (the shift is the
hard-coded 3; `trainCount = N` makes training never fire, and
`trainCount < tr_shift` makes the Python slice `labels[0:trainCount - 3]`
wrap around instead of producing the empty pair list), the run's trace
contains exactly one fit event, at index `trainCount`, whose arguments are
the shift-aligned pairs: the k-th feature row is the feature vector of
index `tr_shift + k` and the k-th label is the label of index `k`, i.e.
the feature at index `i` is paired with the label at index `i - tr_shift`
for every `i` from `tr_shift` to `trainCount - 1`, pairs with a negative
shifted index being dropped. -/
theorem c1_train_at_threshold_amended {F M : Type} (cfg : Cfg F M)
    (h3 : tr_shift ≤ cfg.train_count)
    (hTN : cfg.train_count < cfg.labels.length) :
    (rtRun cfg).trace.filter isFitEv =
      [Ev.fit cfg.train_count (trainFeats cfg) (trainLabs cfg)] ∧
    (trainFeats cfg).length = cfg.train_count - tr_shift ∧
    (trainLabs cfg).length = cfg.train_count - tr_shift ∧
    ∀ i, tr_shift ≤ i → i < cfg.train_count →
      (trainFeats cfg)[i - tr_shift]? = some (cfg.feats i) ∧
      (trainLabs cfg)[i - tr_shift]? = cfg.labels[i - tr_shift]? := by
  have hts : tr_shift = 3 := rfl
  refine ⟨?_, ?_, ?_, ?_⟩
  · have hd : cfg.labels.length = cfg.train_count + 1 +
        (cfg.labels.length - cfg.train_count - 1) := by omega
    rw [rtRun, hd]
    exact (classify_phase_inv cfg _ (by omega)).2.2
  · exact npRows_length cfg.feats tr_shift cfg.train_count
  · rw [trainLabs, pySlice_length cfg.labels 0 _ le_rfl (by omega) (by omega)]
    omega
  · intro i hi1 hi2
    constructor
    · have harg : tr_shift + (i - tr_shift) = i := by omega
      rw [trainFeats, npRows_getElem? cfg.feats tr_shift cfg.train_count
        (i - tr_shift) (by omega), harg]
    · rw [trainLabs, pySlice_getElem? cfg.labels 0 _ le_rfl (by omega)
        (by omega) (i - tr_shift) (by omega)]
      norm_num

/-- Witness for the amended C1: the five-volume run with threshold 4 has
exactly the fit event at index 4, and its pair for `i = 3` is the feature
vector of index 3 together with the label at index 0. -/
theorem c1_train_at_threshold_witness :
    (rtRun cfgT4).trace.filter isFitEv =
      [Ev.fit 4 (trainFeats cfgT4) (trainLabs cfgT4)] ∧
    (trainFeats cfgT4)[(3 : ℕ) - tr_shift]? = some (cfgT4.feats 3) ∧
    (trainLabs cfgT4)[(3 : ℕ) - tr_shift]? = cfgT4.labels[(3 : ℕ) - tr_shift]? :=
  ⟨(c1_train_at_threshold_amended cfgT4 (by decide) (by decide)).1,
   ((c1_train_at_threshold_amended cfgT4 (by decide) (by decide)).2.2.2 3
      (by decide) (by decide)).1,
   ((c1_train_at_threshold_amended cfgT4 (by decide) (by decide)).2.2.2 3
      (by decide) (by decide)).2⟩

lemma basic_inv {F M : Type} (cfg : Cfg F M) :
    ∀ n, n ≤ cfg.labels.length →
      (rtRunUpTo cfg n).err = none ∧
      ((rtRunUpTo cfg n).clf = none ↔ n ≤ cfg.train_count) ∧
      ((rtRunUpTo cfg n).accuracy = none ↔ n ≤ cfg.train_count + 1) := by
  intro n
  induction n with
  | zero =>
    intro _
    refine ⟨rfl, ?_, ?_⟩ <;> simp [rtRunUpTo_zero, rtInit]
  | succ n ih =>
    intro hn1
    obtain ⟨he, hclf, hacc⟩ := ih (by omega)
    rw [rtRunUpTo_succ]
    rcases Nat.lt_trichotomy n cfg.train_count with hlt | heq | hgt
    · rw [rtStep_of_lt cfg _ n he hlt]
      refine ⟨he, ?_, ?_⟩
      · rw [hclf]; omega
      · rw [hacc]; omega
    · subst heq
      rw [rtStep_of_train cfg _ he]
      refine ⟨he, ?_, ?_⟩
      · simp
      · simpa using hacc.mpr (by omega)
    · have hcs : ¬ (rtRunUpTo cfg n).clf = none := fun hc => by
        have := hclf.mp hc; omega
      cases hc : (rtRunUpTo cfg n).clf with
      | none => exact absurd hc hcs
      | some m =>
        obtain ⟨lab, hl⟩ := pyGet_shift_isSome cfg.labels n (by omega) (by omega)
        by_cases hb : 0 < cfg.incremental_batch ∧
            (n - cfg.train_count) % cfg.incremental_batch = 0
        · rw [rtStep_classify_upd cfg _ n m lab he hgt hc hl hb]
          refine ⟨he, ?_, ?_⟩ <;> simp <;> omega
        · rw [rtStep_classify_noupd cfg _ n m lab he hgt hc hl hb]
          refine ⟨he, ?_, ?_⟩ <;> simp [hc] <;> omega

/-- C10: a run returns an accuracy exactly when some index exceeds the
training threshold, i.e. when `len(labels) > trainCount + 1`; otherwise the
local `accuracy` is never assigned and `return accuracy` raises an
UnboundLocalError, and when `trainCount ≥ len(labels)` the local `clf` (the
model) is never assigned either. -/
theorem c10_accuracy_defined_iff {F M : Type} (cfg : Cfg F M) :
    ((∃ a, realtime cfg = Except.ok a) ↔
      cfg.train_count + 1 < cfg.labels.length) ∧
    (cfg.labels.length ≤ cfg.train_count → (rtRun cfg).clf = none) ∧
    (cfg.labels.length ≤ cfg.train_count + 1 →
      realtime cfg = Except.error (PyErr.unboundLocal "accuracy")) := by
  obtain ⟨he, hclf, hacc⟩ := basic_inv cfg cfg.labels.length le_rfl
  have hrr : rtRunUpTo cfg cfg.labels.length = rtRun cfg := rfl
  rw [hrr] at he hclf hacc
  refine ⟨?_, fun h => hclf.mpr (by omega), fun h => ?_⟩
  · constructor
    · rintro ⟨a, ha⟩
      by_contra hcon
      have hn : (rtRun cfg).accuracy = none := hacc.mpr (by omega)
      simp [realtime, he, hn] at ha
    · intro hlt
      cases hac : (rtRun cfg).accuracy with
      | none => exact absurd (hacc.mp hac) (by omega)
      | some a => exact ⟨a, by simp [realtime, he, hac]⟩
  · have hn : (rtRun cfg).accuracy = none := hacc.mpr h
    simp [realtime, he, hn]

/-- Witness for C10: with two labels and threshold 3, the model local is
never assigned and the run raises an UnboundLocalError for `accuracy`. -/
theorem c10_accuracy_defined_iff_witness :
    (rtRun cfgShort).clf = none ∧
    realtime cfgShort = Except.error (PyErr.unboundLocal "accuracy") :=
  ⟨(c10_accuracy_defined_iff cfgShort).2.1 (by decide),
   (c10_accuracy_defined_iff cfgShort).2.2 (by decide)⟩

lemma rtStep_classify_unbound {F M : Type} (cfg : Cfg F M) (st : St F M)
    (idx : ℕ) (he : st.err = none) (hgt : cfg.train_count < idx)
    (hc : st.clf = none) :
    rtStep cfg st idx = { st with err := some (PyErr.unboundLocal "clf") } := by
  have h1 : ¬ idx < cfg.train_count := by omega
  have h2 : ¬ idx = cfg.train_count := by omega
  simp [rtStep, he, h1, h2, hc]

lemma rtStep_classify_indexErr {F M : Type} (cfg : Cfg F M) (st : St F M)
    (idx : ℕ) (m : M) (he : st.err = none) (hgt : cfg.train_count < idx)
    (hc : st.clf = some m)
    (hl : pyGet cfg.labels ((idx : Int) - (tr_shift : Int)) = none) :
    rtStep cfg st idx =
      { st with trace := st.trace ++ [Ev.predict idx m],
                err := some PyErr.indexErr } := by
  have h1 : ¬ idx < cfg.train_count := by omega
  have h2 : ¬ idx = cfg.train_count := by omega
  simp [rtStep, he, h1, h2, hc, hl]

lemma batch0_all {F M : Type} (cfg : Cfg F M)
    (hb : cfg.incremental_batch = 0) :
    ∀ n, (rtRunUpTo cfg n).trace.countP isUpdateEv = 0 ∧
      ((rtRunUpTo cfg n).clf = none ∨
        (rtRunUpTo cfg n).clf = some (fitModel cfg)) ∧
      ∀ i m, Ev.predict i m ∈ (rtRunUpTo cfg n).trace → m = fitModel cfg := by
  intro n
  induction n with
  | zero =>
    exact ⟨rfl, Or.inl rfl, fun i m h => by simp [rtRunUpTo_zero, rtInit] at h⟩
  | succ n ih =>
    obtain ⟨hcnt, hclf, hpred⟩ := ih
    rw [rtRunUpTo_succ]
    cases hse : (rtRunUpTo cfg n).err with
    | some e => rw [rtStep_of_err cfg _ n e hse]; exact ⟨hcnt, hclf, hpred⟩
    | none =>
      rcases Nat.lt_trichotomy n cfg.train_count with hlt | heqT | hgt
      · rw [rtStep_of_lt cfg _ n hse hlt]; exact ⟨hcnt, hclf, hpred⟩
      · subst heqT
        rw [rtStep_of_train cfg _ hse]
        refine ⟨?_, Or.inr rfl, ?_⟩
        · simp [List.countP_append, hcnt, isUpdateEv]
        · intro i m h
          rcases List.mem_append.mp h with hin | hnew
          · exact hpred i m hin
          · simp at hnew
      · cases hc : (rtRunUpTo cfg n).clf with
        | none =>
          rw [rtStep_classify_unbound cfg _ n hse hgt hc]
          exact ⟨hcnt, hclf, hpred⟩
        | some m' =>
          have hm' : m' = fitModel cfg := by
            rcases hclf with h | h
            · rw [hc] at h; exact absurd h (by simp)
            · rw [hc] at h; exact Option.some_injective _ h
          cases hl : pyGet cfg.labels ((n : Int) - (tr_shift : Int)) with
          | none =>
            rw [rtStep_classify_indexErr cfg _ n m' hse hgt hc hl]
            refine ⟨by simp [List.countP_append, hcnt, isUpdateEv], hclf, ?_⟩
            intro i m h
            rcases List.mem_append.mp h with hin | hnew
            · exact hpred i m hin
            · simp at hnew
              rw [hnew.2, hm']
          | some lab =>
            have hbd : ¬(0 < cfg.incremental_batch ∧
                (n - cfg.train_count) % cfg.incremental_batch = 0) := by
              rw [hb]; simp
            rw [rtStep_classify_noupd cfg _ n m' lab hse hgt hc hl hbd]
            refine ⟨by simp [List.countP_append, hcnt, isUpdateEv], ?_, ?_⟩
            · simpa [hc] using hclf
            · intro i m h
              rcases List.mem_append.mp h with hin | hnew
              · exact hpred i m hin
              · simp at hnew
                rw [hnew.2, hm']

/-- C7: with incremental batch size 0, a run performs no incremental update
at all - its trace has zero update events - every prediction uses exactly
the model of the single initial fit, and the live model is either still
unassigned or exactly that initially fitted model. -/
theorem c7_batch_zero_frozen_model {F M : Type} (cfg : Cfg F M)
    (hb : cfg.incremental_batch = 0) :
    (rtRun cfg).trace.countP isUpdateEv = 0 ∧
    (∀ i m, Ev.predict i m ∈ (rtRun cfg).trace → m = fitModel cfg) ∧
    ((rtRun cfg).clf = none ∨ (rtRun cfg).clf = some (fitModel cfg)) := by
  obtain ⟨h1, h2, h3⟩ := batch0_all cfg hb cfg.labels.length
  exact ⟨h1, h3, h2⟩

/-- Witness for C7: the concrete Scenario A run (batch size 0) has no update
events and ends with the initially fitted model live. -/
theorem c7_batch_zero_frozen_model_witness :
    (rtRun cfgA0).trace.countP isUpdateEv = 0 ∧
    ((rtRun cfgA0).clf = none ∨ (rtRun cfgA0).clf = some (fitModel cfgA0)) :=
  ⟨(c7_batch_zero_frozen_model cfgA0 rfl).1,
   (c7_batch_zero_frozen_model cfgA0 rfl).2.2⟩

lemma batch0_phase {F M : Type} (cfg : Cfg F M)
    (hb : cfg.incremental_batch = 0) :
    ∀ d, cfg.train_count + 1 + d ≤ cfg.labels.length →
      (rtRunUpTo cfg (cfg.train_count + 1 + d)).err = none ∧
      (rtRunUpTo cfg (cfg.train_count + 1 + d)).clf = some (fitModel cfg) ∧
      (rtRunUpTo cfg (cfg.train_count + 1 + d)).trace =
        Ev.fit cfg.train_count (trainFeats cfg) (trainLabs cfg) ::
          (List.range' (cfg.train_count + 1) d).map
            (fun i => Ev.predict i (fitModel cfg)) ∧
      (rtRunUpTo cfg (cfg.train_count + 1 + d)).num_correct ≤ d ∧
      (rtRunUpTo cfg (cfg.train_count + 1 + d)).accuracy =
        (if d = 0 then none
         else some (((rtRunUpTo cfg (cfg.train_count + 1 + d)).num_correct : ℚ)
           / (d : ℚ))) := by
  intro d
  induction d with
  | zero =>
    intro _
    rw [runUpTo_train_succ]
    exact ⟨rfl, rfl, by simp, le_rfl, rfl⟩
  | succ d ih =>
    intro hle
    obtain ⟨he, hm, htr, hnc, hacc⟩ := ih (by omega)
    set idx := cfg.train_count + 1 + d with hidx
    have hstep : cfg.train_count + 1 + (d + 1) = idx + 1 := by omega
    rw [hstep, rtRunUpTo_succ]
    have hgt : cfg.train_count < idx := by omega
    obtain ⟨lab, hl⟩ := pyGet_shift_isSome cfg.labels idx (by omega) (by omega)
    have hbd : ¬(0 < cfg.incremental_batch ∧
        (idx - cfg.train_count) % cfg.incremental_batch = 0) := by
      rw [hb]; simp
    rw [rtStep_classify_noupd cfg _ idx (fitModel cfg) lab he hgt hm hl hbd]
    have hsub : (idx - cfg.train_count : ℕ) = d + 1 := by omega
    refine ⟨he, hm, ?_, ?_, ?_⟩
    · rw [List.range'_concat]
      simp only [htr, List.map_append]
      simp [hidx]
    · dsimp only
      split <;> omega
    · dsimp only
      rw [hsub]
      simp

/-- C5 (counterexample): in the Scenario A run (threshold 5, ten volumes
with alternating labels), the classified indices are 6, 7, 8, 9 - index 5,
which the claim says is classified, is not - and the single fit at index 5
uses the hard-coded shift of 3, pairing features 3 and 4 with labels 1 and
2 of indices 0 and 1, not the claim's shift-0 pairs (0,label0)…(4,label4). -/
theorem c5_scenario_a_counterexample :
    predIdxs (rtRun cfgA0).trace = [6, 7, 8, 9] ∧
    (5 : ℕ) ∉ predIdxs (rtRun cfgA0).trace ∧
    (rtRun cfgA0).trace.filter isFitEv = [Ev.fit 5 [3, 4] [1, 2]] := by
  refine ⟨by decide, by decide, by decide⟩

lemma filter_fit_map_predict {F M : Type} (m : M) (l : List ℕ) :
    (l.map (fun i => (Ev.predict i m : Ev F M))).filter isFitEv = [] := by
  induction l with
  | nil => rfl
  | cons a l ih => simp [isFitEv, ih]

lemma predIdxs_fit_cons {F M : Type} (i : ℕ) (fs : List F) (ls : List Int)
    (tr : List (Ev F M)) :
    predIdxs (Ev.fit i fs ls :: tr) = predIdxs tr := by
  simp [predIdxs, List.filterMap_cons]

lemma predIdxs_map_predict {F M : Type} (m : M) (l : List ℕ) :
    predIdxs (l.map (fun i => (Ev.predict i m : Ev F M))) = l := by
  induction l with
  | nil => rfl
  | cons a l ih =>
    simp only [List.map_cons, predIdxs, List.filterMap_cons]
    simpa [predIdxs] using ih

/-- C5 (amended): for every feature map and classifier, the Scenario A run
(threshold 5, ten volumes, alternating labels, incremental updating off)
trains exactly once, at index 5, on the shift-3-aligned pairs - features of
indices 3 and 4 against labels 1 and 2 of indices 0 and 1 - classifies
exactly the indices 6 through 9, and returns an accuracy in [0, 1]. -/
theorem c5_scenario_a_amended {F M : Type} (feats : ℕ → F)
    (adapter : Adapter F M) :
    (rtRun (scnA feats adapter)).trace.filter isFitEv =
      [Ev.fit 5 [feats 3, feats 4] [1, 2]] ∧
    predIdxs (rtRun (scnA feats adapter)).trace = [6, 7, 8, 9] ∧
    ∃ a, realtime (scnA feats adapter) = Except.ok a ∧ 0 ≤ a ∧ a ≤ 1 := by
  obtain ⟨he, hm, htr, hnc, hacc⟩ :=
    batch0_phase (scnA feats adapter) rfl 4 (Nat.le_refl 10)
  have hrr : rtRun (scnA feats adapter) =
      rtRunUpTo (scnA feats adapter)
        ((scnA feats adapter).train_count + 1 + 4) := rfl
  have htf : trainFeats (scnA feats adapter) = [feats 3, feats 4] := rfl
  have htl : trainLabs (scnA feats adapter) = [1, 2] := rfl
  have htc : (scnA feats adapter).train_count = 5 := rfl
  have hrange : List.range' ((scnA feats adapter).train_count + 1) 4 =
      [6, 7, 8, 9] := rfl
  have he' : (rtRun (scnA feats adapter)).err = none := by rw [hrr]; exact he
  have hacc' : (rtRun (scnA feats adapter)).accuracy =
      some (((rtRunUpTo (scnA feats adapter)
        ((scnA feats adapter).train_count + 1 + 4)).num_correct : ℚ) / 4) := by
    rw [hrr, hacc]
    norm_num
  refine ⟨?_, ?_, ?_⟩
  · rw [hrr, htr, htf, htl, htc]
    simp [isFitEv, filter_fit_map_predict]
  · rw [hrr, htr, predIdxs_fit_cons, predIdxs_map_predict, hrange]
  · refine ⟨((rtRunUpTo (scnA feats adapter)
      ((scnA feats adapter).train_count + 1 + 4)).num_correct : ℚ) / 4,
      ?_, ?_, ?_⟩
    · simp [realtime, he', hacc']
    · positivity
    · rw [div_le_one (by norm_num)]
      exact_mod_cast hnc

lemma upd_sublist {F M : Type} (cfg : Cfg F M) :
    ∀ n idx ufs uls m, Ev.update idx ufs uls m ∈ (rtRunUpTo cfg n).trace →
      List.Sublist [Ev.predict idx m, Ev.update idx ufs uls m]
        (rtRunUpTo cfg n).trace := by
  intro n
  induction n with
  | zero =>
    intro idx ufs uls m h
    simp [rtRunUpTo_zero, rtInit] at h
  | succ n ih =>
    intro idx ufs uls m hmem
    rw [rtRunUpTo_succ] at hmem ⊢
    cases hse : (rtRunUpTo cfg n).err with
    | some e =>
      rw [rtStep_of_err cfg _ n e hse] at hmem ⊢
      exact ih _ _ _ _ hmem
    | none =>
      rcases Nat.lt_trichotomy n cfg.train_count with hlt | heqT | hgt
      · rw [rtStep_of_lt cfg _ n hse hlt] at hmem ⊢
        exact ih _ _ _ _ hmem
      · subst heqT
        rw [rtStep_of_train cfg _ hse] at hmem ⊢
        rcases List.mem_append.mp hmem with hin | hnew
        · exact (ih _ _ _ _ hin).trans (List.sublist_append_left _ _)
        · simp at hnew
      · cases hc : (rtRunUpTo cfg n).clf with
        | none =>
          rw [rtStep_classify_unbound cfg _ n hse hgt hc] at hmem ⊢
          exact ih _ _ _ _ hmem
        | some m' =>
          cases hl : pyGet cfg.labels ((n : Int) - (tr_shift : Int)) with
          | none =>
            rw [rtStep_classify_indexErr cfg _ n m' hse hgt hc hl] at hmem ⊢
            rcases List.mem_append.mp hmem with hin | hnew
            · exact (ih _ _ _ _ hin).trans (List.sublist_append_left _ _)
            · simp at hnew
          | some lab =>
            by_cases hbd : 0 < cfg.incremental_batch ∧
                (n - cfg.train_count) % cfg.incremental_batch = 0
            · rw [rtStep_classify_upd cfg _ n m' lab hse hgt hc hl hbd]
                at hmem ⊢
              rcases List.mem_append.mp hmem with hin | hnew
              · exact (ih _ _ _ _ hin).trans (List.sublist_append_left _ _)
              · simp at hnew
                obtain ⟨h1, h2, h3, h4⟩ := hnew
                subst h1 h2 h3 h4
                exact List.sublist_append_right _ _
            · rw [rtStep_classify_noupd cfg _ n m' lab hse hgt hc hl hbd]
                at hmem ⊢
              rcases List.mem_append.mp hmem with hin | hnew
              · exact (ih _ _ _ _ hin).trans (List.sublist_append_left _ _)
              · simp at hnew

/-- C6: in every run with a non-zero incremental batch size, each model
update recorded in the trace is preceded, strictly earlier in the trace, by
the prediction for the same (batch-final) index, and that prediction was
computed with exactly the model the update receives as its previous state -
so every prediction uses the model as it existed before the update of its
batch, and the boundary update happens strictly after the boundary
prediction, interleaved in the classifying phase. -/
theorem c6_predict_before_update {F M : Type} (cfg : Cfg F M)
    (_hb : cfg.incremental_batch ≠ 0) (idx : ℕ) (ufs : List F)
    (uls : List Int) (m : M)
    (hmem : Ev.update idx ufs uls m ∈ (rtRun cfg).trace) :
    List.Sublist [Ev.predict idx m, Ev.update idx ufs uls m]
      (rtRun cfg).trace :=
  upd_sublist cfg cfg.labels.length idx ufs uls m hmem

/-- Witness for C6: in the concrete incremental run, the update at the batch
boundary index 7 is preceded in the trace by the prediction for index 7
made with the pre-update model 1, which the update receives as previous
state. -/
theorem c6_predict_before_update_witness :
    List.Sublist [Ev.predict 7 1, Ev.update 7 [6] [2] 1]
      (rtRun cfgBatch).trace :=
  c6_predict_before_update cfgBatch (by decide) 7 [6] [2] 1 (by decide)

lemma upd_chara {F M : Type} (cfg : Cfg F M) :
    ∀ n idx ufs uls m, Ev.update idx ufs uls m ∈ (rtRunUpTo cfg n).trace →
      cfg.train_count < idx ∧ idx < n ∧
      0 < cfg.incremental_batch ∧
      (idx - cfg.train_count) % cfg.incremental_batch = 0 ∧
      cfg.train_count + cfg.incremental_batch ≤ idx ∧
      ufs = updFeats cfg idx ∧ uls = updLabs cfg idx ∧
      (rtRunUpTo cfg idx).clf = some m ∧
      (rtRunUpTo cfg (idx + 1)).clf =
        some (cfg.adapter.fitupd ufs uls (some m)) := by
  intro n
  induction n with
  | zero =>
    intro idx ufs uls m h
    simp [rtRunUpTo_zero, rtInit] at h
  | succ n ih =>
    intro idx ufs uls m hmem
    rw [rtRunUpTo_succ] at hmem
    cases hse : (rtRunUpTo cfg n).err with
    | some e =>
      rw [rtStep_of_err cfg _ n e hse] at hmem
      obtain ⟨a1, a2, rest⟩ := ih _ _ _ _ hmem
      exact ⟨a1, by omega, rest⟩
    | none =>
      rcases Nat.lt_trichotomy n cfg.train_count with hlt | heqT | hgt
      · rw [rtStep_of_lt cfg _ n hse hlt] at hmem
        obtain ⟨a1, a2, rest⟩ := ih _ _ _ _ hmem
        exact ⟨a1, by omega, rest⟩
      · subst heqT
        rw [rtStep_of_train cfg _ hse] at hmem
        rcases List.mem_append.mp hmem with hin | hnew
        · obtain ⟨a1, a2, rest⟩ := ih _ _ _ _ hin
          exact ⟨a1, by omega, rest⟩
        · simp at hnew
      · cases hc : (rtRunUpTo cfg n).clf with
        | none =>
          rw [rtStep_classify_unbound cfg _ n hse hgt hc] at hmem
          obtain ⟨a1, a2, rest⟩ := ih _ _ _ _ hmem
          exact ⟨a1, by omega, rest⟩
        | some m' =>
          cases hl : pyGet cfg.labels ((n : Int) - (tr_shift : Int)) with
          | none =>
            rw [rtStep_classify_indexErr cfg _ n m' hse hgt hc hl] at hmem
            rcases List.mem_append.mp hmem with hin | hnew
            · obtain ⟨a1, a2, rest⟩ := ih _ _ _ _ hin
              exact ⟨a1, by omega, rest⟩
            · simp at hnew
          | some lab =>
            by_cases hbd : 0 < cfg.incremental_batch ∧
                (n - cfg.train_count) % cfg.incremental_batch = 0
            · rw [rtStep_classify_upd cfg _ n m' lab hse hgt hc hl hbd] at hmem
              rcases List.mem_append.mp hmem with hin | hnew
              · obtain ⟨a1, a2, rest⟩ := ih _ _ _ _ hin
                exact ⟨a1, by omega, rest⟩
              · simp at hnew
                obtain ⟨h1, h2, h3, h4⟩ := hnew
                subst h1 h2 h3 h4
                have hdvd : cfg.incremental_batch ∣ (idx - cfg.train_count) :=
                  Nat.dvd_of_mod_eq_zero hbd.2
                have hble : cfg.incremental_batch ≤ idx - cfg.train_count :=
                  Nat.le_of_dvd (by omega) hdvd
                refine ⟨hgt, by omega, hbd.1, hbd.2, by omega, rfl, rfl, hc, ?_⟩
                rw [rtRunUpTo_succ,
                  rtStep_classify_upd cfg _ idx m lab hse hgt hc hl hbd]
            · rw [rtStep_classify_noupd cfg _ n m' lab hse hgt hc hl hbd]
                at hmem
              rcases List.mem_append.mp hmem with hin | hnew
              · obtain ⟨a1, a2, rest⟩ := ih _ _ _ _ hin
                exact ⟨a1, by omega, rest⟩
              · simp at hnew

/-- C8 (counterexample): in the concrete incremental run with batch size 4
(threshold 3, nine volumes), the single model update is invoked with one
(feature, label) pair, not with the four most recent pairs the claim
demands: the hard-coded shift of 3 cuts the batch window down to
`batch - 3` pairs. -/
theorem c8_batch_pairs_counterexample :
    cfgBatch.incremental_batch = 4 ∧
    updFeatCounts (rtRun cfgBatch).trace = [1] := by
  exact ⟨rfl, by decide⟩

lemma rtStep_trace_append {F M : Type} (cfg : Cfg F M) (st : St F M)
    (idx : ℕ) : ∃ t, (rtStep cfg st idx).trace = st.trace ++ t := by
  cases hse : st.err with
  | some e => exact ⟨[], by rw [rtStep_of_err cfg st idx e hse]; simp⟩
  | none =>
    rcases Nat.lt_trichotomy idx cfg.train_count with hlt | heqT | hgt
    · exact ⟨[], by rw [rtStep_of_lt cfg st idx hse hlt]; simp⟩
    · subst heqT
      exact ⟨_, by rw [rtStep_of_train cfg st hse]⟩
    · cases hc : st.clf with
      | none =>
        exact ⟨[], by rw [rtStep_classify_unbound cfg st idx hse hgt hc]; simp⟩
      | some m =>
        cases hl : pyGet cfg.labels ((idx : Int) - (tr_shift : Int)) with
        | none =>
          exact ⟨_, by rw [rtStep_classify_indexErr cfg st idx m hse hgt hc hl]⟩
        | some lab =>
          by_cases hbd : 0 < cfg.incremental_batch ∧
              (idx - cfg.train_count) % cfg.incremental_batch = 0
          · exact ⟨_,
              by rw [rtStep_classify_upd cfg st idx m lab hse hgt hc hl hbd]⟩
          · exact ⟨_,
              by rw [rtStep_classify_noupd cfg st idx m lab hse hgt hc hl hbd]⟩

lemma mem_trace_mono {F M : Type} (cfg : Cfg F M) (e : Ev F M) :
    ∀ n n', n ≤ n' → e ∈ (rtRunUpTo cfg n).trace →
      e ∈ (rtRunUpTo cfg n').trace := by
  intro n n'
  induction n' with
  | zero =>
    intro h hmem
    have hn : n = 0 := by omega
    subst hn
    exact hmem
  | succ k ih =>
    intro h hmem
    by_cases hn : n = k + 1
    · subst hn
      exact hmem
    · obtain ⟨t, ht⟩ := rtStep_trace_append cfg (rtRunUpTo cfg k) k
      rw [rtRunUpTo_succ, ht]
      exact List.mem_append.mpr (Or.inl (ih (by omega) hmem))

/-- C8 (amended): in every run with non-zero batch size N, an update is
invoked at every batch boundary `idx` that the run reaches (`idx` above the
threshold, below the volume count, with `idx - trainCount` a multiple of N):
the trace contains the update event for `idx`, carrying the model live
before it, and the adapter's result is the live model from the next
iteration on; conversely every recorded update happens at such a boundary
(with `idx - trainCount` a positive multiple of N) and is invoked with the
shift-aligned pairs of the batch window `[idx - N, idx)`: exactly
`idx - (idx - N + tr_shift)` pairs (that is `N - tr_shift` when
`N ≥ tr_shift`, fewer than N), the k-th being the feature of index
`idx - N + tr_shift + k` against the label of index `idx - N + k`
(feature `i` against label `i - tr_shift`). -/
theorem c8_batch_pairs_amended {F M : Type} (cfg : Cfg F M)
    (hb : cfg.incremental_batch ≠ 0) :
    (∀ idx, cfg.train_count < idx → idx < cfg.labels.length →
      (idx - cfg.train_count) % cfg.incremental_batch = 0 →
      ∃ m, (rtRunUpTo cfg idx).clf = some m ∧
        Ev.update idx (updFeats cfg idx) (updLabs cfg idx) m ∈
          (rtRun cfg).trace ∧
        (rtRunUpTo cfg (idx + 1)).clf =
          some (cfg.adapter.fitupd (updFeats cfg idx) (updLabs cfg idx)
            (some m))) ∧
    (∀ idx ufs uls m, Ev.update idx ufs uls m ∈ (rtRun cfg).trace →
      (idx - cfg.train_count) % cfg.incremental_batch = 0 ∧
      cfg.train_count + cfg.incremental_batch ≤ idx ∧
      idx < cfg.labels.length ∧
      ufs = updFeats cfg idx ∧ uls = updLabs cfg idx ∧
      ufs.length = idx - (idx - cfg.incremental_batch + tr_shift) ∧
      (∀ k, k < ufs.length →
        ufs[k]? = some (cfg.feats (idx - cfg.incremental_batch + tr_shift + k)) ∧
        uls[k]? = cfg.labels[idx - cfg.incremental_batch + k]?) ∧
      (rtRunUpTo cfg (idx + 1)).clf =
        some (cfg.adapter.fitupd ufs uls (some m))) := by
  constructor
  · intro idx hgt hltN hmod
    have hidx : idx = cfg.train_count + 1 + (idx - cfg.train_count - 1) := by
      omega
    obtain ⟨he, ⟨m, hm⟩, -⟩ :=
      classify_phase_inv cfg (idx - cfg.train_count - 1) (by omega)
    rw [← hidx] at he hm
    obtain ⟨lab, hl⟩ := pyGet_shift_isSome cfg.labels idx (by omega) hltN
    have hbd : 0 < cfg.incremental_batch ∧
        (idx - cfg.train_count) % cfg.incremental_batch = 0 :=
      ⟨Nat.pos_of_ne_zero hb, hmod⟩
    have hstep := rtStep_classify_upd cfg (rtRunUpTo cfg idx) idx m lab
      he hgt hm hl hbd
    have hmem1 : Ev.update idx (updFeats cfg idx) (updLabs cfg idx) m ∈
        (rtRunUpTo cfg (idx + 1)).trace := by
      rw [rtRunUpTo_succ, hstep]
      simp
    refine ⟨m, hm, ?_, ?_⟩
    · exact mem_trace_mono cfg _ (idx + 1) cfg.labels.length (by omega) hmem1
    · rw [rtRunUpTo_succ, hstep]
  · intro idx ufs uls m hmem
    obtain ⟨hgt, hltN, hbpos, hmod, hge, hufs, huls, hclf, hnext⟩ :=
      upd_chara cfg cfg.labels.length idx ufs uls m hmem
    subst hufs huls
    have hlen : (updFeats cfg idx).length =
        idx - (idx - cfg.incremental_batch + tr_shift) :=
      npRows_length cfg.feats _ idx
    refine ⟨hmod, hge, hltN, rfl, rfl, hlen, ?_, hnext⟩
    intro k hk
    rw [hlen] at hk
    constructor
    · exact npRows_getElem? cfg.feats _ idx k hk
    · have hts : tr_shift = 3 := rfl
      rw [updLabs, pySlice_getElem? cfg.labels _ _ (Int.natCast_nonneg _)
        (by omega) (by omega) k (by omega)]
      rw [Int.toNat_natCast]

/-- Witness for the amended C8: in the concrete incremental run the update
does fire at the boundary index 7 - the trace contains its update event,
carrying the pre-update model 1 - it received exactly the single pair
(feature row 6, label of index 3), and the adapter's result became the live
model at iteration 8. -/
theorem c8_batch_pairs_witness :
    Ev.update 7 (updFeats cfgBatch 7) (updLabs cfgBatch 7) 1 ∈
      (rtRun cfgBatch).trace ∧
    updFeats cfgBatch 7 = [6] ∧ updLabs cfgBatch 7 = [2] ∧
    (rtRunUpTo cfgBatch 8).clf =
      some (cfgBatch.adapter.fitupd [6] [2] (some 1)) := by
  have h := c8_batch_pairs_amended cfgBatch (by decide)
  obtain ⟨m, hm, hmem, hnext⟩ := h.1 7 (by decide) (by decide) (by decide)
  have hm1 : (1 : ℕ) = m := by
    injection ((by decide : (rtRunUpTo cfgBatch 7).clf = some 1).symm.trans hm)
  subst hm1
  have hf : updFeats cfgBatch 7 = [6] := by decide
  have hl : updLabs cfgBatch 7 = [2] := by decide
  rw [hf, hl] at hnext
  exact ⟨hmem, hf, hl, hnext⟩

end RT
